import Mathlib

/-!
Verification development for the chronicle append-only event log
(src/storage.rs, src/event.rs).

The log file is modelled as a list of bytes (`List Nat`); a missing file is
`Option.none`.  The JSON codec (serde_json) is an external collaborator: it is
modelled as a pair of parameters, an encoder `enc : StoredEvent → List Nat`
(serde_json::to_vec) and a decoder `dec : List Nat → Except JsonErrCat
StoredEvent` (serde_json::from_slice), where `JsonErrCat` is serde_json's
documented error category.  The `?` operator in `read_event_at_offset` converts
a serde_json error into an io::Error through serde_json's
`From<Error> for io::Error` instance, which maps the Eof category to
`ErrorKind::UnexpectedEof` and the Syntax/Data categories to
`ErrorKind::InvalidData`; this conversion is `serde_io_error` below.
Wall-clock time is an explicit parameter `now_ms` to `append_event`.
-/

namespace Chronicle

/-- Model of a serde_json::Value: an arbitrary JSON-like tree. -/
inductive Json where
  | null
  | bool (b : Bool)
  | num (n : Int)
  | str (s : String)
  | arr (elems : List Json)
  | obj (fields : List (String × Json))

/-- Event provided by the caller for storage (src/event.rs).  The Rust field
`namespace` is a Lean keyword, hence `namespace_`. -/
structure Event where
  event_type : String
  namespace_ : String
  schema_id : String
  schema_version : Nat
  aggregate_id : Option Nat
  payload : Json

/-- Event with chronicle-controlled metadata, as read back from the log
(src/event.rs).  The serde `flatten` attribute only affects the byte-level
encoding, which is abstracted by the codec parameters. -/
structure StoredEvent where
  write_timestamp_ms : Nat
  event : Event

/-- serde_json error categories relevant to `from_slice` (the Io category
cannot arise when deserializing from an in-memory slice). -/
inductive JsonErrCat where
  | eof
  | synErr
  | dataErr

/-- io::ErrorKind values distinguished by the storage code. -/
inductive IOErrorKind where
  | notFound
  | unexpectedEof
  | invalidData

/-- serde_json's documented `From<serde_json::Error> for std::io::Error`
conversion, used by the `?` on `serde_json::from_slice` in
`read_event_at_offset`: Eof becomes UnexpectedEof, Syntax and Data become
InvalidData. -/
def serde_io_error : JsonErrCat → IOErrorKind
  | .eof => .unexpectedEof
  | .synErr => .invalidData
  | .dataErr => .invalidData

/-- Result of reading one entry (struct ReadResult in src/storage.rs). -/
structure ReadResult where
  offset : Nat
  event : StoredEvent

/-- Maps aggregate IDs to their event offsets in the log
(HashMap<u64, Vec<u64>> in the source, modelled as an association list). -/
abbrev AggregateIndex := List (Nat × List Nat)

/-- Big-endian bytes of a u32 value (u32::to_be_bytes). -/
def u32be (n : Nat) : List Nat :=
  [n / 2 ^ 24 % 256, n / 2 ^ 16 % 256, n / 2 ^ 8 % 256, n % 256]

/-- Value of a big-endian byte string (u32::from_be_bytes on 4 bytes). -/
def beVal (bytes : List Nat) : Nat :=
  bytes.foldl (fun acc b => acc * 256 + b) 0

/-- OpenOptions::new().read(true).open(path): fails with NotFound when the
file does not exist, otherwise yields its bytes. -/
def open_file_for_read (file : Option (List Nat)) : Except IOErrorKind (List Nat) :=
  match file with
  | none => .error .notFound
  | some bytes => .ok bytes

/-- Reads the event at the given offset (seeking there first) or at the
current cursor `pos` when `offset` is `none`; returns the entry together with
the cursor position after it.  Mirrors `read_event_at_offset`: read exactly 4
length bytes (UnexpectedEof if fewer remain), then exactly `length` payload
bytes (UnexpectedEof if fewer remain), then deserialize the payload, a
serde_json failure being converted by `serde_io_error`. -/
def read_event_at_offset (dec : List Nat → Except JsonErrCat StoredEvent)
    (file : List Nat) (pos : Nat) (offset : Option Nat) :
    Except IOErrorKind (ReadResult × Nat) :=
  let p := offset.getD pos
  let rest := file.drop p
  if rest.length < 4 then
    .error .unexpectedEof
  else
    let length := beVal (rest.take 4)
    if (rest.drop 4).length < length then
      .error .unexpectedEof
    else
      match dec ((rest.drop 4).take length) with
      | .error c => .error (serde_io_error c)
      | .ok event => .ok (⟨p, event⟩, p + 4 + length)

theorem read_ok_pos {dec : List Nat → Except JsonErrCat StoredEvent}
    {file : List Nat} {pos : Nat} {r : ReadResult} {pos' : Nat}
    (h : read_event_at_offset dec file pos none = .ok (r, pos')) :
    pos < pos' ∧ pos' ≤ file.length := by
  unfold read_event_at_offset at h
  simp only [Option.getD] at h
  split at h
  · exact absurd h (by simp)
  · rename_i h4
    split at h
    · exact absurd h (by simp)
    · rename_i hn
      split at h
      · exact absurd h (by simp)
      · rename_i ev heq
        simp only [Except.ok.injEq, Prod.mk.injEq] at h
        have hlen : (List.drop pos file).length = file.length - pos := by
          simp
        have hlen2 : ((List.drop pos file).drop 4).length = file.length - pos - 4 := by
          simp
          omega
        omega

/-- One pass of the loop in `scan_log_entries` / `read_events`: read entries
from cursor `pos` onwards, stopping with success at UnexpectedEof (clean EOF
at entry boundary) and propagating any other error. -/
def scanFrom (dec : List Nat → Except JsonErrCat StoredEvent)
    (file : List Nat) (pos : Nat) :
    Except IOErrorKind (List (Nat × StoredEvent)) :=
  match h : read_event_at_offset dec file pos none with
  | .error .unexpectedEof => .ok []
  | .error e => .error e
  | .ok (r, pos') =>
    match scanFrom dec file pos' with
    | .error e => .error e
    | .ok l => .ok ((r.offset, r.event) :: l)
termination_by file.length - pos
decreasing_by
  have := read_ok_pos h
  omega

/-- scan_log_entries: open the file, then collect every `(offset, event)`
pair produced by the scan loop, in order.  The callback of the Rust function
is modelled by returning the list of pairs it would be invoked on. -/
def scan_log_entries (dec : List Nat → Except JsonErrCat StoredEvent)
    (file : Option (List Nat)) : Except IOErrorKind (List (Nat × StoredEvent)) :=
  match open_file_for_read file with
  | .error e => .error e
  | .ok bytes => scanFrom dec bytes 0

/-- append_event: open for append (creating when absent — pass `[]` for a
fresh file), record the end-of-file position as the returned offset, stamp the
wall clock (`as u64` truncates), compose the StoredEvent, serialize it, and
write the 4-byte big-endian length (`as u32` truncates) followed by the
payload.  Returns the new file contents and the offset. -/
def append_event (enc : StoredEvent → List Nat)
    (file : List Nat) (now_ms : Nat) (event : Event) : List Nat × Nat :=
  let offset := file.length
  let write_timestamp_ms := now_ms % 2 ^ 64
  let stored_event : StoredEvent := ⟨write_timestamp_ms, event⟩
  let json := enc stored_event
  let len := json.length % 2 ^ 32
  (file ++ u32be len ++ json, offset)

/-- HashMap::get on the association-list model of the index. -/
def indexLookup : AggregateIndex → Nat → Option (List Nat)
  | [], _ => none
  | (k, l) :: rest, id => if k = id then some l else indexLookup rest id

/-- HashMap::entry(k).or_default().push(off) on the association-list model:
append `off` to the list of `k`, creating the entry when absent. -/
def indexPush : AggregateIndex → Nat → Nat → AggregateIndex
  | [], k, off => [(k, [off])]
  | (k', l) :: rest, k, off =>
    if k' = k then (k', l ++ [off]) :: rest else (k', l) :: indexPush rest k off

/-- Body of the loop in `load_aggregate`: seek to each recorded offset in
order, decode exactly one entry there, propagate any failure. -/
def loadOffsets (dec : List Nat → Except JsonErrCat StoredEvent)
    (bytes : List Nat) : List Nat → Except IOErrorKind (List StoredEvent)
  | [] => .ok []
  | off :: rest =>
    match read_event_at_offset dec bytes 0 (some off) with
    | .error e => .error e
    | .ok (r, _) => (loadOffsets dec bytes rest).map (fun l => r.event :: l)

/-- load_aggregate: open the file (this happens before the index lookup in
the source), return `[]` when the aggregate is absent from the index,
otherwise decode one entry at each recorded offset, in index order. -/
def load_aggregate (dec : List Nat → Except JsonErrCat StoredEvent)
    (file : Option (List Nat)) (aggregate_id : Nat) (index : AggregateIndex) :
    Except IOErrorKind (List StoredEvent) :=
  match open_file_for_read file with
  | .error e => .error e
  | .ok bytes =>
    match indexLookup index aggregate_id with
    | none => .ok []
    | some offsets => loadOffsets dec bytes offsets

/-- Body of the closure passed to `scan_log_entries` by `rebuild_index`:
push the offset onto the aggregate's list when the event carries an
aggregate id, ignore the event otherwise. -/
def indexStep (index : AggregateIndex) (entry : Nat × StoredEvent) : AggregateIndex :=
  match entry.2.event.aggregate_id with
  | some id => indexPush index id entry.1
  | none => index

/-- rebuild_index: scan the whole log and fold every scanned entry into an
initially empty index. -/
def rebuild_index (dec : List Nat → Except JsonErrCat StoredEvent)
    (file : Option (List Nat)) : Except IOErrorKind AggregateIndex :=
  match scan_log_entries dec file with
  | .error e => .error e
  | .ok entries => .ok (entries.foldl indexStep [])

/-! Frame-layer vocabulary used to state properties about log files. -/

/-- Bytes of one encoded frame: the 4-byte big-endian length of the payload
(truncated to u32, as the source's `as u32` cast does) followed by the
payload bytes. -/
def frameBytes (payload : List Nat) : List Nat :=
  u32be (payload.length % 2 ^ 32) ++ payload

/-- Bytes of a sequence of frames laid out back to back. -/
def framesBytes (payloads : List (List Nat)) : List Nat :=
  (payloads.map frameBytes).flatten

/-- Offsets at which successive frames start, given the offset of the first. -/
def frameOffsets : List (List Nat) → Nat → List Nat
  | [], _ => []
  | p :: rest, start => start :: frameOffsets rest (start + 4 + p.length)

theorem u32be_length (n : Nat) : (u32be n).length = 4 := rfl

theorem beVal_u32be {n : Nat} (h : n < 2 ^ 32) : beVal (u32be n) = n := by
  simp only [beVal, u32be, List.foldl]
  omega

theorem read_seek (dec : List Nat → Except JsonErrCat StoredEvent)
    (file : List Nat) (pos off : Nat) :
    read_event_at_offset dec file pos (some off) =
      read_event_at_offset dec file off none := rfl

/-- Reading at a position where a complete frame (with arbitrary trailing
bytes) starts consumes exactly that frame and hands its payload to the
decoder. -/
theorem read_at_frame (dec : List Nat → Except JsonErrCat StoredEvent)
    {file : List Nat} {pos : Nat} (p rest : List Nat)
    (hdrop : file.drop pos = frameBytes p ++ rest) (hlen : p.length < 2 ^ 32) :
    read_event_at_offset dec file pos none =
      match dec p with
      | .error c => .error (serde_io_error c)
      | .ok ev => .ok (⟨pos, ev⟩, pos + 4 + p.length) := by
  have hmod : p.length % 4294967296 = p.length := by omega
  have hfb : frameBytes p ++ rest = u32be p.length ++ (p ++ rest) := by
    simp [frameBytes, hmod]
  simp only [read_event_at_offset, Option.getD, hdrop, hfb]
  rw [List.take_left' (u32be_length p.length), List.drop_left' (u32be_length p.length)]
  rw [beVal_u32be hlen]
  have h1 : ¬ (u32be p.length ++ (p ++ rest)).length < 4 := by
    simp [u32be_length]
  have h2 : ¬ (p ++ rest).length < p.length := by
    simp
  rw [if_neg h1, if_neg h2, List.take_left]

/-- Reading where fewer than 4 bytes remain is a clean UnexpectedEof. -/
theorem read_short_header {dec : List Nat → Except JsonErrCat StoredEvent}
    {file : List Nat} {pos : Nat} (h : (file.drop pos).length < 4) :
    read_event_at_offset dec file pos none = .error .unexpectedEof := by
  simp only [read_event_at_offset, Option.getD]
  rw [if_pos h]

/-- Reading where a full 4-byte length header remains but fewer payload bytes
than it declares is a clean UnexpectedEof. -/
theorem read_short_payload {dec : List Nat → Except JsonErrCat StoredEvent}
    {file : List Nat} {pos : Nat} (hdr t : List Nat)
    (hdrop : file.drop pos = hdr ++ t) (hlen : hdr.length = 4)
    (ht : t.length < beVal hdr) :
    read_event_at_offset dec file pos none = .error .unexpectedEof := by
  simp only [read_event_at_offset, Option.getD, hdrop]
  rw [List.take_left' hlen, List.drop_left' hlen]
  have h1 : ¬ (hdr ++ t).length < 4 := by
    simp [hlen]
  rw [if_neg h1, if_pos ht]

/-! Behaviour of the scan loop, one step at a time. -/

theorem scanFrom_eof {dec : List Nat → Except JsonErrCat StoredEvent}
    {file : List Nat} {pos : Nat}
    (h : read_event_at_offset dec file pos none = .error .unexpectedEof) :
    scanFrom dec file pos = .ok [] := by
  unfold scanFrom
  rw [h]

theorem scanFrom_invalid {dec : List Nat → Except JsonErrCat StoredEvent}
    {file : List Nat} {pos : Nat}
    (h : read_event_at_offset dec file pos none = .error .invalidData) :
    scanFrom dec file pos = .error .invalidData := by
  unfold scanFrom
  rw [h]

theorem scanFrom_step {dec : List Nat → Except JsonErrCat StoredEvent}
    {file : List Nat} {pos pos' : Nat} {r : ReadResult}
    (h : read_event_at_offset dec file pos none = .ok (r, pos')) :
    scanFrom dec file pos =
      (scanFrom dec file pos').map (fun l => (r.offset, r.event) :: l) := by
  cases hres : scanFrom dec file pos' with
  | error e =>
    unfold scanFrom
    rw [h]
    simp [hres, Except.map]
  | ok l =>
    unfold scanFrom
    rw [h]
    simp [hres, Except.map]

/-- Scanning over a run of complete, decodable frames collects exactly those
frames (offset by offset) and then continues after them. -/
theorem scanFrom_frames (dec : List Nat → Except JsonErrCat StoredEvent)
    (ps : List (List Nat)) (es : List StoredEvent) (tail file : List Nat) (pos : Nat)
    (hdrop : file.drop pos = framesBytes ps ++ tail)
    (hps : ∀ p ∈ ps, p.length < 2 ^ 32)
    (hdec : List.Forall₂ (fun p e => dec p = .ok e) ps es) :
    scanFrom dec file pos =
      (scanFrom dec file (pos + (framesBytes ps).length)).map
        (fun l => (frameOffsets ps pos).zip es ++ l) := by
  induction hdec generalizing pos with
  | nil =>
    simp only [framesBytes, List.map_nil, List.flatten_nil, List.length_nil,
      Nat.add_zero, frameOffsets]
    cases scanFrom dec file pos <;> simp [Except.map]
  | cons hpe hrest ih =>
    rename_i p e ps' es'
    have hplen : p.length < 2 ^ 32 := hps p (by simp)
    have hdrop1 : file.drop pos = frameBytes p ++ (framesBytes ps' ++ tail) := by
      rw [hdrop]
      simp [framesBytes]
    have hread := read_at_frame dec p (framesBytes ps' ++ tail) hdrop1 hplen
    rw [hpe] at hread
    have hdrop2 : file.drop (pos + 4 + p.length) = framesBytes ps' ++ tail := by
      have : pos + 4 + p.length = pos + (frameBytes p).length := by
        simp [frameBytes, u32be_length]
        omega
      rw [this, ← List.drop_drop, hdrop1, List.drop_left]
    rw [scanFrom_step hread]
    rw [ih (pos + 4 + p.length) hdrop2 (fun q hq => hps q (by simp [hq]))]
    have hlenfb : (framesBytes (p :: ps')).length =
        4 + p.length + (framesBytes ps').length := by
      simp [framesBytes, frameBytes, u32be_length]
      omega
    have hoff : frameOffsets (p :: ps') pos =
        pos :: frameOffsets ps' (pos + 4 + p.length) := rfl
    rw [hoff, hlenfb]
    have harith : pos + 4 + p.length + (framesBytes ps').length =
        pos + (4 + p.length + (framesBytes ps').length) := by omega
    rw [harith]
    cases scanFrom dec file (pos + (4 + p.length + (framesBytes ps').length)) <;>
      simp [Except.map]

/-- A trailing fragment after which no complete frame can be read: either
fewer than 4 bytes remain (not even a full length header), or a full 4-byte
header declares more payload bytes than remain. -/
def truncatedTail (frag : List Nat) : Prop :=
  frag.length < 4 ∨ ∃ hdr t, frag = hdr ++ t ∧ hdr.length = 4 ∧ t.length < beVal hdr

theorem scanFrom_fragment {dec : List Nat → Except JsonErrCat StoredEvent}
    {file : List Nat} {pos : Nat} (frag : List Nat)
    (hdrop : file.drop pos = frag) (hfrag : truncatedTail frag) :
    scanFrom dec file pos = .ok [] := by
  rcases hfrag with h | ⟨hdr, t, rfl, h4, ht⟩
  · exact scanFrom_eof (read_short_header (by rw [hdrop]; exact h))
  · exact scanFrom_eof (read_short_payload hdr t hdrop h4 ht)

/-- Scanning a file made of complete decodable frames followed by a truncated
tail succeeds and yields exactly those frames with their offsets. -/
theorem scan_complete_frames (dec : List Nat → Except JsonErrCat StoredEvent)
    (ps : List (List Nat)) (es : List StoredEvent) (frag : List Nat)
    (hps : ∀ p ∈ ps, p.length < 2 ^ 32)
    (hdec : List.Forall₂ (fun p e => dec p = .ok e) ps es)
    (hfrag : truncatedTail frag) :
    scan_log_entries dec (some (framesBytes ps ++ frag)) =
      .ok ((frameOffsets ps 0).zip es) := by
  show scanFrom dec (framesBytes ps ++ frag) 0 = _
  have hdrop : (framesBytes ps ++ frag).drop 0 = framesBytes ps ++ frag := rfl
  rw [scanFrom_frames dec ps es frag _ 0 hdrop hps hdec]
  have hdrop2 : (framesBytes ps ++ frag).drop (0 + (framesBytes ps).length) = frag := by
    simp
  rw [scanFrom_fragment frag hdrop2 hfrag]
  simp [Except.map]

theorem rebuild_of_scan {dec : List Nat → Except JsonErrCat StoredEvent}
    {file : Option (List Nat)} {entries : List (Nat × StoredEvent)}
    (h : scan_log_entries dec file = .ok entries) :
    rebuild_index dec file = .ok (entries.foldl indexStep []) := by
  unfold rebuild_index
  rw [h]

/-! The aggregate index as a function of the scanned entries. -/

/-- Offsets of the entries carrying aggregate id `id`, in entry order. -/
def offsetsOf (id : Nat) : List (Nat × StoredEvent) → List Nat
  | [] => []
  | e :: es =>
    match e.2.event.aggregate_id with
    | some j => if j = id then e.1 :: offsetsOf id es else offsetsOf id es
    | none => offsetsOf id es

/-- Offset list recorded in the index for `id` (empty when absent). -/
def indexOffsets (index : AggregateIndex) (id : Nat) : List Nat :=
  (indexLookup index id).getD []

theorem indexOffsets_push (index : AggregateIndex) (k off id : Nat) :
    indexOffsets (indexPush index k off) id =
      if id = k then indexOffsets index id ++ [off] else indexOffsets index id := by
  induction index with
  | nil =>
    by_cases h : id = k
    · subst h
      simp [indexPush, indexOffsets, indexLookup]
    · simp [indexPush, indexOffsets, indexLookup, h, Ne.symm h]
  | cons hd tl ih =>
    obtain ⟨k', l⟩ := hd
    by_cases hk : k' = k
    · subst hk
      by_cases h : id = k'
      · subst h
        simp [indexPush, indexOffsets, indexLookup]
      · simp [indexPush, indexOffsets, indexLookup, h, Ne.symm h]
    · by_cases h : k' = id
      · subst h
        simp [indexPush, indexOffsets, indexLookup, hk, Ne.symm hk]
      · simp only [indexPush, if_neg hk, indexOffsets, indexLookup, if_neg h]
        simpa [indexOffsets] using ih

theorem foldl_indexStep (entries : List (Nat × StoredEvent))
    (index : AggregateIndex) (id : Nat) :
    indexOffsets (entries.foldl indexStep index) id =
      indexOffsets index id ++ offsetsOf id entries := by
  induction entries generalizing index with
  | nil => simp [offsetsOf]
  | cons e es ih =>
    rw [List.foldl_cons, ih]
    cases hagg : e.2.event.aggregate_id with
    | none => simp [indexStep, hagg, offsetsOf]
    | some j =>
      simp only [indexStep, hagg, offsetsOf]
      rw [indexOffsets_push]
      by_cases hj : j = id
      · subst hj
        simp
      · simp [hj, Ne.symm hj]

/-! Unfolding equations for the appender and loader. -/

theorem append_event_spec (enc : StoredEvent → List Nat)
    (file : List Nat) (now_ms : Nat) (event : Event) :
    append_event enc file now_ms event =
      (file ++ u32be ((enc ⟨now_ms % 2 ^ 64, event⟩).length % 2 ^ 32) ++
         enc ⟨now_ms % 2 ^ 64, event⟩,
       file.length) := rfl

theorem loadOffsets_cons_ok {dec : List Nat → Except JsonErrCat StoredEvent}
    {bytes : List Nat} {off : Nat} {rest : List Nat} {r : ReadResult} {pos' : Nat}
    (h : read_event_at_offset dec bytes off none = .ok (r, pos')) :
    loadOffsets dec bytes (off :: rest) =
      (loadOffsets dec bytes rest).map (fun l => r.event :: l) := by
  simp only [loadOffsets]
  rw [read_seek, h]

theorem loadOffsets_cons_error {dec : List Nat → Except JsonErrCat StoredEvent}
    {bytes : List Nat} {off : Nat} {rest : List Nat} {e : IOErrorKind}
    (h : read_event_at_offset dec bytes off none = .error e) :
    loadOffsets dec bytes (off :: rest) = .error e := by
  simp only [loadOffsets]
  rw [read_seek, h]

/-! A small concrete codec used to instantiate the codec parameters on
concrete inputs.  It round-trips exactly the `demoStored` events below, and
sends the payload byte 123 (the single character of a truncated JSON
document, such as an opening brace alone) to serde's Eof error category. -/

/-- Sample caller event with a chosen aggregate id. -/
def demoEvent (a : Option Nat) : Event :=
  ⟨"Created", "accounts", "Person", 1, a, Json.null⟩

/-- Sample stored event: `demoEvent a` stamped with timestamp `ts`. -/
def demoStored (ts : Nat) (a : Option Nat) : StoredEvent :=
  ⟨ts, demoEvent a⟩

/-- Concrete encoder: two bytes, timestamp then aggregate id shifted by one
(0 encodes the absent id). -/
def demoEnc (s : StoredEvent) : List Nat :=
  [s.write_timestamp_ms,
   match s.event.aggregate_id with
   | none => 0
   | some i => i + 1]

/-- Concrete decoder, inverse of `demoEnc` on `demoStored` events; the
one-byte payload `[123]` deserializes with error category Eof, any other
shape with category Syntax. -/
def demoDec : List Nat → Except JsonErrCat StoredEvent
  | [ts, a] => .ok (demoStored ts (if a = 0 then none else some (a - 1)))
  | [123] => .error .eof
  | _ => .error .synErr

/-! Claim theorems. -/

/-- C9: calling rebuild_index on a path where no file exists propagates the
file-open NotFound error instead of producing an empty index. -/
theorem rebuild_index_missing_file_errors
    (dec : List Nat → Except JsonErrCat StoredEvent) :
    rebuild_index dec none = .error .notFound := rfl

/-- C8: for every existing log file and every index, load_aggregate on an
aggregate id absent from the index returns an empty sequence and no error,
whatever the file's contents. -/
theorem load_aggregate_absent_id_empty
    (dec : List Nat → Except JsonErrCat StoredEvent) (bytes : List Nat)
    (aggregate_id : Nat) (index : AggregateIndex)
    (h : indexLookup index aggregate_id = none) :
    load_aggregate dec (some bytes) aggregate_id index = .ok [] := by
  show (match indexLookup index aggregate_id with
        | none => (Except.ok [] : Except IOErrorKind (List StoredEvent))
        | some offsets => loadOffsets dec bytes offsets) = .ok []
  rw [h]

theorem load_aggregate_absent_id_empty_witness :
    load_aggregate demoDec (some [0, 0, 0, 1]) 7 [(3, [0])] = .ok [] :=
  load_aggregate_absent_id_empty demoDec [0, 0, 0, 1] 7 [(3, [0])] rfl

/-- C7: if the single-frame decode at some offset recorded in the index for
the requested aggregate fails (for instance after external truncation of the
log), load_aggregate returns an error; the failure is never downgraded to a
clean end or to a shorter successful result. -/
theorem load_aggregate_propagates_read_error
    (dec : List Nat → Except JsonErrCat StoredEvent) (bytes : List Nat)
    (id : Nat) (index : AggregateIndex) (offsets : List Nat)
    (off : Nat) (err : IOErrorKind)
    (hlook : indexLookup index id = some offsets)
    (hmem : off ∈ offsets)
    (herr : read_event_at_offset dec bytes off none = .error err) :
    ∃ e, load_aggregate dec (some bytes) id index = .error e := by
  have hload : load_aggregate dec (some bytes) id index = loadOffsets dec bytes offsets := by
    show (match indexLookup index id with
          | none => (Except.ok [] : Except IOErrorKind (List StoredEvent))
          | some offs => loadOffsets dec bytes offs) = _
    rw [hlook]
  rw [hload]
  clear hload hlook
  induction offsets with
  | nil => simp at hmem
  | cons o rest ih =>
    rcases List.mem_cons.mp hmem with rfl | hmem'
    · exact ⟨err, loadOffsets_cons_error herr⟩
    · cases hro : read_event_at_offset dec bytes o none with
      | error e => exact ⟨e, loadOffsets_cons_error hro⟩
      | ok v =>
        obtain ⟨r, pos'⟩ := v
        obtain ⟨e, he⟩ := ih hmem'
        refine ⟨e, ?_⟩
        rw [loadOffsets_cons_ok hro, he]
        rfl

theorem load_aggregate_propagates_read_error_witness :
    ∃ e, load_aggregate demoDec (some []) 7 [(7, [0])] = .error e :=
  load_aggregate_propagates_read_error demoDec [] 7 [(7, [0])] [0] 0
    .unexpectedEof rfl (by simp) rfl

/-- C6: the offset returned by a second completed append strictly exceeds
the offset returned by the first append to the same file. -/
theorem append_offsets_strictly_increase
    (enc : StoredEvent → List Nat) (file f1 f2 : List Nat)
    (ts1 ts2 : Nat) (e1 e2 : Event) (o1 o2 : Nat)
    (h1 : append_event enc file ts1 e1 = (f1, o1))
    (h2 : append_event enc f1 ts2 e2 = (f2, o2)) :
    o1 < o2 := by
  have e1' : (f1, o1) = (file ++ u32be ((enc ⟨ts1 % 2 ^ 64, e1⟩).length % 2 ^ 32) ++
      enc ⟨ts1 % 2 ^ 64, e1⟩, file.length) := h1.symm.trans (append_event_spec enc file ts1 e1)
  have e2' : (f2, o2) = (f1 ++ u32be ((enc ⟨ts2 % 2 ^ 64, e2⟩).length % 2 ^ 32) ++
      enc ⟨ts2 % 2 ^ 64, e2⟩, f1.length) := h2.symm.trans (append_event_spec enc f1 ts2 e2)
  injection e1' with hf1 ho1
  injection e2' with hf2 ho2
  subst hf1
  rw [ho1, ho2]
  simp [u32be_length]

theorem append_offsets_strictly_increase_witness : (0 : Nat) < 6 :=
  append_offsets_strictly_increase demoEnc [] [0, 0, 0, 2, 5, 2]
    [0, 0, 0, 2, 5, 2, 0, 0, 0, 2, 8, 3] 5 8 (demoEvent (some 1)) (demoEvent (some 2))
    0 6 rfl rfl

/-- C10: a successful append returns the file's previous byte length as the
offset, and afterwards the file is the previous bytes unchanged followed by
exactly one frame: the 4-byte big-endian length of the serialized
StoredEvent followed by those serialized bytes, and nothing else. -/
theorem append_event_frame_effect
    (enc : StoredEvent → List Nat) (file f' : List Nat)
    (now_ms off : Nat) (event : Event)
    (happ : append_event enc file now_ms event = (f', off))
    (hlen : (enc ⟨now_ms % 2 ^ 64, event⟩).length < 2 ^ 32) :
    off = file.length ∧
      f' = file ++ u32be (enc ⟨now_ms % 2 ^ 64, event⟩).length ++
        enc ⟨now_ms % 2 ^ 64, event⟩ := by
  have e' : (f', off) = (file ++ u32be ((enc ⟨now_ms % 2 ^ 64, event⟩).length % 2 ^ 32) ++
      enc ⟨now_ms % 2 ^ 64, event⟩, file.length) :=
    happ.symm.trans (append_event_spec enc file now_ms event)
  injection e' with hf ho
  exact ⟨ho, by rw [hf, Nat.mod_eq_of_lt hlen]⟩

theorem append_event_frame_effect_witness :
    (0 : Nat) = List.length ([] : List Nat) ∧
      [0, 0, 0, 2, 5, 2] = [] ++ u32be (demoEnc ⟨5 % 2 ^ 64, demoEvent (some 1)⟩).length ++
        demoEnc ⟨5 % 2 ^ 64, demoEvent (some 1)⟩ :=
  append_event_frame_effect demoEnc [] [0, 0, 0, 2, 5, 2] 5 0 (demoEvent (some 1))
    rfl (by decide)

/-- C5: decoding the frame written by an append of event `e` yields a
StoredEvent whose caller-supplied fields are exactly `e`'s fields and whose
timestamp is the value the store stamped at append time. -/
theorem append_round_trip
    (enc : StoredEvent → List Nat) (dec : List Nat → Except JsonErrCat StoredEvent)
    (file f' : List Nat) (now_ms off : Nat) (e : Event)
    (happ : append_event enc file now_ms e = (f', off))
    (hdec : dec (enc ⟨now_ms % 2 ^ 64, e⟩) = .ok ⟨now_ms % 2 ^ 64, e⟩)
    (hlen : (enc ⟨now_ms % 2 ^ 64, e⟩).length < 2 ^ 32) :
    read_event_at_offset dec f' 0 (some off) =
      .ok (⟨off, ⟨now_ms % 2 ^ 64, e⟩⟩,
        off + 4 + (enc ⟨now_ms % 2 ^ 64, e⟩).length) := by
  have e' : (f', off) = (file ++ u32be ((enc ⟨now_ms % 2 ^ 64, e⟩).length % 2 ^ 32) ++
      enc ⟨now_ms % 2 ^ 64, e⟩, file.length) :=
    happ.symm.trans (append_event_spec enc file now_ms e)
  injection e' with hf ho
  rw [read_seek]
  have hdrop : f'.drop off = frameBytes (enc ⟨now_ms % 2 ^ 64, e⟩) ++ [] := by
    rw [hf, ho, List.append_assoc, List.drop_left]
    simp [frameBytes]
  have h := read_at_frame dec (enc ⟨now_ms % 2 ^ 64, e⟩) [] hdrop hlen
  rw [hdec] at h
  exact h

theorem append_round_trip_witness :
    read_event_at_offset demoDec [0, 0, 0, 2, 5, 2] 0 (some 0) =
      .ok (⟨0, demoStored 5 (some 1)⟩, 0 + 4 + 2) :=
  append_round_trip demoEnc demoDec [] [0, 0, 0, 2, 5, 2] 5 0 (demoEvent (some 1))
    rfl rfl (by decide)

/-- C2: a log of complete decodable frames followed by a truncated trailing
fragment (fewer than 4 bytes, possibly none, or a full 4-byte length header
declaring more payload than remains) scans without error to exactly the
complete frames, in order, paired with their offsets. -/
theorem scan_ok_on_truncated_tail
    (dec : List Nat → Except JsonErrCat StoredEvent)
    (ps : List (List Nat)) (es : List StoredEvent) (frag : List Nat)
    (hps : ∀ p ∈ ps, p.length < 2 ^ 32)
    (hdec : List.Forall₂ (fun p e => dec p = .ok e) ps es)
    (hfrag : truncatedTail frag) :
    scan_log_entries dec (some (framesBytes ps ++ frag)) =
      .ok ((frameOffsets ps 0).zip es) :=
  scan_complete_frames dec ps es frag hps hdec hfrag

theorem scan_ok_on_truncated_tail_witness :
    scan_log_entries demoDec (some [0, 0, 0, 2, 5, 2, 0, 0, 0, 9]) =
      .ok [(0, demoStored 5 (some 1))] :=
  scan_ok_on_truncated_tail demoDec [[5, 2]] [demoStored 5 (some 1)] [0, 0, 0, 9]
    (by intro p hp; simp at hp; subst hp; decide)
    (List.Forall₂.cons rfl List.Forall₂.nil)
    (Or.inr ⟨[0, 0, 0, 9], [], rfl, rfl, by decide⟩)

/-- C1 (refuted by the code, supporting a code_bug verdict): a log holding
one good frame followed by one COMPLETE frame — its 4-byte length header
declares 1 byte and that byte is present — whose payload fails to
deserialize with serde's Eof category (here the byte 123, a lone opening
brace, i.e. a truncated JSON document) is scanned with NO error: the
conversion of the serde error into io::ErrorKind::UnexpectedEof makes
scan_log_entries treat the corrupt frame as clean end of log and silently
skip it, instead of stopping with a hard error as the spec requires. -/
theorem scan_silently_skips_eof_category_corruption :
    demoDec [123] = .error .eof ∧
      scan_log_entries demoDec (some (framesBytes [[5, 2]] ++ frameBytes [123])) =
        .ok [(0, demoStored 5 (some 1))] := by
  refine ⟨rfl, ?_⟩
  show scanFrom demoDec (framesBytes [[5, 2]] ++ frameBytes [123]) 0 = _
  have h1 := scanFrom_frames demoDec [[5, 2]] [demoStored 5 (some 1)]
    (frameBytes [123]) (framesBytes [[5, 2]] ++ frameBytes [123]) 0
    (by simp)
    (by intro p hp; simp at hp; subst hp; decide)
    (List.Forall₂.cons rfl List.Forall₂.nil)
  rw [h1]
  have hdrop2 : (framesBytes [[5, 2]] ++ frameBytes [123]).drop
      (0 + (framesBytes [[5, 2]]).length) = frameBytes [123] ++ [] := by
    simp
  have hread := read_at_frame demoDec [123] [] hdrop2 (by decide)
  have heof : read_event_at_offset demoDec (framesBytes [[5, 2]] ++ frameBytes [123])
      (0 + (framesBytes [[5, 2]]).length) none = .error .unexpectedEof := by
    simpa using hread
  rw [scanFrom_eof heof]
  rfl

/-- C4: over any log that scans without error, the rebuilt index records for
every aggregate id exactly the offsets of that id's events, in scan (=
append) order; in particular no offset of an event without an aggregate id
appears in any list. -/
theorem rebuild_index_groups_by_aggregate
    (dec : List Nat → Except JsonErrCat StoredEvent) (file : List Nat)
    (entries : List (Nat × StoredEvent)) (index : AggregateIndex)
    (hscan : scan_log_entries dec (some file) = .ok entries)
    (hidx : rebuild_index dec (some file) = .ok index) :
    ∀ id, indexOffsets index id = offsetsOf id entries := by
  intro id
  have h := rebuild_of_scan hscan
  rw [hidx] at h
  injection h with h'
  rw [h', foldl_indexStep]
  simp [indexOffsets, indexLookup]

theorem rebuild_index_groups_by_aggregate_witness :
    indexOffsets [(1, [0])] 1 = offsetsOf 1 [(0, demoStored 5 (some 1))] ∧
      indexOffsets [(1, [0])] 3 = offsetsOf 3 [(0, demoStored 5 (some 1))] := by
  have hscan : scan_log_entries demoDec (some [0, 0, 0, 2, 5, 2]) =
      .ok [(0, demoStored 5 (some 1))] :=
    scan_complete_frames demoDec [[5, 2]] [demoStored 5 (some 1)] []
      (by intro p hp; simp at hp; subst hp; decide)
      (List.Forall₂.cons rfl List.Forall₂.nil)
      (Or.inl (by decide))
  have hidx : rebuild_index demoDec (some [0, 0, 0, 2, 5, 2]) = .ok [(1, [0])] :=
    rebuild_of_scan hscan
  exact ⟨rebuild_index_groups_by_aggregate demoDec _ _ _ hscan hidx 1,
    rebuild_index_groups_by_aggregate demoDec _ _ _ hscan hidx 3⟩

/-- C3: appending events A (aggregate 1), B (aggregate 2), C (aggregate 1)
to an empty log yields offsets oA < oB < oC; rebuild_index then returns
exactly the mapping 1 ↦ [oA, oC], 2 ↦ [oB]; and load_aggregate for
aggregate 1 returns exactly the stored A and C, in that order. -/
theorem append_three_rebuild_and_load
    (enc : StoredEvent → List Nat) (dec : List Nat → Except JsonErrCat StoredEvent)
    (eA eB eC : Event) (ts1 ts2 ts3 : Nat)
    (f1 f2 f3 : List Nat) (oA oB oC : Nat)
    (hA : eA.aggregate_id = some 1) (hB : eB.aggregate_id = some 2)
    (hC : eC.aggregate_id = some 1)
    (h1 : append_event enc [] ts1 eA = (f1, oA))
    (h2 : append_event enc f1 ts2 eB = (f2, oB))
    (h3 : append_event enc f2 ts3 eC = (f3, oC))
    (hdA : dec (enc ⟨ts1 % 2 ^ 64, eA⟩) = .ok ⟨ts1 % 2 ^ 64, eA⟩)
    (hdB : dec (enc ⟨ts2 % 2 ^ 64, eB⟩) = .ok ⟨ts2 % 2 ^ 64, eB⟩)
    (hdC : dec (enc ⟨ts3 % 2 ^ 64, eC⟩) = .ok ⟨ts3 % 2 ^ 64, eC⟩)
    (hlA : (enc ⟨ts1 % 2 ^ 64, eA⟩).length < 2 ^ 32)
    (hlB : (enc ⟨ts2 % 2 ^ 64, eB⟩).length < 2 ^ 32)
    (hlC : (enc ⟨ts3 % 2 ^ 64, eC⟩).length < 2 ^ 32) :
    oA < oB ∧ oB < oC ∧
      rebuild_index dec (some f3) = .ok [(1, [oA, oC]), (2, [oB])] ∧
      load_aggregate dec (some f3) 1 [(1, [oA, oC]), (2, [oB])] =
        .ok [⟨ts1 % 2 ^ 64, eA⟩, ⟨ts3 % 2 ^ 64, eC⟩] := by
  have e1 : (f1, oA) = (frameBytes (enc ⟨ts1 % 2 ^ 64, eA⟩), 0) :=
    h1.symm.trans (append_event_spec enc [] ts1 eA)
  injection e1 with hf1 ho1
  have e2 : (f2, oB) = (f1 ++ u32be ((enc ⟨ts2 % 2 ^ 64, eB⟩).length % 2 ^ 32) ++
      enc ⟨ts2 % 2 ^ 64, eB⟩, f1.length) :=
    h2.symm.trans (append_event_spec enc f1 ts2 eB)
  injection e2 with hf2 ho2
  have e3 : (f3, oC) = (f2 ++ u32be ((enc ⟨ts3 % 2 ^ 64, eC⟩).length % 2 ^ 32) ++
      enc ⟨ts3 % 2 ^ 64, eC⟩, f2.length) :=
    h3.symm.trans (append_event_spec enc f2 ts3 eC)
  injection e3 with hf3 ho3
  have hframes2 : f2 = frameBytes (enc ⟨ts1 % 2 ^ 64, eA⟩) ++
      frameBytes (enc ⟨ts2 % 2 ^ 64, eB⟩) := by
    rw [hf2, hf1]
    simp [frameBytes, List.append_assoc]
  have hf3s : f3 = framesBytes [enc ⟨ts1 % 2 ^ 64, eA⟩, enc ⟨ts2 % 2 ^ 64, eB⟩,
      enc ⟨ts3 % 2 ^ 64, eC⟩] ++ [] := by
    rw [hf3, hframes2]
    simp [framesBytes, frameBytes, List.append_assoc]
  have hoB : oB = 4 + (enc ⟨ts1 % 2 ^ 64, eA⟩).length := by
    rw [ho2, hf1]
    simp [frameBytes, u32be_length]
    try omega
  have hoC : oC = 8 + (enc ⟨ts1 % 2 ^ 64, eA⟩).length +
      (enc ⟨ts2 % 2 ^ 64, eB⟩).length := by
    rw [ho3, hframes2]
    simp [frameBytes, u32be_length]
    try omega
  have hscan := scan_complete_frames dec
    [enc ⟨ts1 % 2 ^ 64, eA⟩, enc ⟨ts2 % 2 ^ 64, eB⟩, enc ⟨ts3 % 2 ^ 64, eC⟩]
    [⟨ts1 % 2 ^ 64, eA⟩, ⟨ts2 % 2 ^ 64, eB⟩, ⟨ts3 % 2 ^ 64, eC⟩] []
    (by intro p hp; simp at hp; rcases hp with rfl | rfl | rfl
        exacts [hlA, hlB, hlC])
    (List.Forall₂.cons hdA (List.Forall₂.cons hdB
      (List.Forall₂.cons hdC List.Forall₂.nil)))
    (Or.inl (by decide))
  rw [← hf3s] at hscan
  have hoff : frameOffsets [enc ⟨ts1 % 2 ^ 64, eA⟩, enc ⟨ts2 % 2 ^ 64, eB⟩,
      enc ⟨ts3 % 2 ^ 64, eC⟩] 0 = [oA, oB, oC] := by
    simp only [frameOffsets, List.cons.injEq, and_true]
    omega
  rw [hoff] at hscan
  have hzip : List.zip [oA, oB, oC]
      [(⟨ts1 % 2 ^ 64, eA⟩ : StoredEvent), ⟨ts2 % 2 ^ 64, eB⟩, ⟨ts3 % 2 ^ 64, eC⟩] =
      [(oA, ⟨ts1 % 2 ^ 64, eA⟩), (oB, ⟨ts2 % 2 ^ 64, eB⟩), (oC, ⟨ts3 % 2 ^ 64, eC⟩)] := rfl
  rw [hzip] at hscan
  have hfold : List.foldl indexStep []
      [(oA, (⟨ts1 % 2 ^ 64, eA⟩ : StoredEvent)), (oB, ⟨ts2 % 2 ^ 64, eB⟩),
        (oC, ⟨ts3 % 2 ^ 64, eC⟩)] = [(1, [oA, oC]), (2, [oB])] := by
    simp [indexStep, hA, hB, hC, indexPush]
  have hreb : rebuild_index dec (some f3) = .ok [(1, [oA, oC]), (2, [oB])] := by
    rw [rebuild_of_scan hscan, hfold]
  have hload_eq : load_aggregate dec (some f3) 1 [(1, [oA, oC]), (2, [oB])] =
      loadOffsets dec f3 [oA, oC] := rfl
  have hdropA : f3.drop oA = frameBytes (enc ⟨ts1 % 2 ^ 64, eA⟩) ++
      (frameBytes (enc ⟨ts2 % 2 ^ 64, eB⟩) ++ frameBytes (enc ⟨ts3 % 2 ^ 64, eC⟩)) := by
    rw [ho1, hf3s]
    simp [framesBytes]
  have hreadA : read_event_at_offset dec f3 oA none =
      .ok (⟨oA, ⟨ts1 % 2 ^ 64, eA⟩⟩, oA + 4 + (enc ⟨ts1 % 2 ^ 64, eA⟩).length) := by
    have h := read_at_frame dec (enc ⟨ts1 % 2 ^ 64, eA⟩)
      (frameBytes (enc ⟨ts2 % 2 ^ 64, eB⟩) ++ frameBytes (enc ⟨ts3 % 2 ^ 64, eC⟩))
      hdropA hlA
    rw [hdA] at h
    exact h
  have hdropC : f3.drop oC = frameBytes (enc ⟨ts3 % 2 ^ 64, eC⟩) ++ [] := by
    have hlen2 : oC = (frameBytes (enc ⟨ts1 % 2 ^ 64, eA⟩) ++
        frameBytes (enc ⟨ts2 % 2 ^ 64, eB⟩)).length := by
      simp only [frameBytes, List.length_append, u32be_length]
      omega
    rw [hlen2, hf3s]
    rw [show framesBytes [enc ⟨ts1 % 2 ^ 64, eA⟩, enc ⟨ts2 % 2 ^ 64, eB⟩,
        enc ⟨ts3 % 2 ^ 64, eC⟩] ++ [] =
        (frameBytes (enc ⟨ts1 % 2 ^ 64, eA⟩) ++ frameBytes (enc ⟨ts2 % 2 ^ 64, eB⟩)) ++
          (frameBytes (enc ⟨ts3 % 2 ^ 64, eC⟩) ++ []) from by
      simp [framesBytes, List.append_assoc]]
    rw [List.drop_left]
  have hreadC : read_event_at_offset dec f3 oC none =
      .ok (⟨oC, ⟨ts3 % 2 ^ 64, eC⟩⟩, oC + 4 + (enc ⟨ts3 % 2 ^ 64, eC⟩).length) := by
    have h := read_at_frame dec (enc ⟨ts3 % 2 ^ 64, eC⟩) [] hdropC hlC
    rw [hdC] at h
    exact h
  have hload : loadOffsets dec f3 [oA, oC] = .ok [⟨ts1 % 2 ^ 64, eA⟩, ⟨ts3 % 2 ^ 64, eC⟩] := by
    rw [loadOffsets_cons_ok hreadA, loadOffsets_cons_ok hreadC]
    rfl
  exact ⟨by omega, by omega, hreb, by rw [hload_eq, hload]⟩

theorem append_three_rebuild_and_load_witness :
    (0 : Nat) < 6 ∧ (6 : Nat) < 12 ∧
      rebuild_index demoDec
          (some [0, 0, 0, 2, 10, 2, 0, 0, 0, 2, 11, 3, 0, 0, 0, 2, 12, 2]) =
        .ok [(1, [0, 12]), (2, [6])] ∧
      load_aggregate demoDec
          (some [0, 0, 0, 2, 10, 2, 0, 0, 0, 2, 11, 3, 0, 0, 0, 2, 12, 2]) 1
          [(1, [0, 12]), (2, [6])] =
        .ok [demoStored 10 (some 1), demoStored 12 (some 1)] :=
  append_three_rebuild_and_load demoEnc demoDec
    (demoEvent (some 1)) (demoEvent (some 2)) (demoEvent (some 1)) 10 11 12
    [0, 0, 0, 2, 10, 2] [0, 0, 0, 2, 10, 2, 0, 0, 0, 2, 11, 3]
    [0, 0, 0, 2, 10, 2, 0, 0, 0, 2, 11, 3, 0, 0, 0, 2, 12, 2] 0 6 12
    rfl rfl rfl rfl rfl rfl rfl rfl rfl (by decide) (by decide) (by decide)

end Chronicle
